import Mathlib

/-!
Shallow embedding of the binary field extraction and SysEx patch-framing
engine of `dn_deobfuscator/app.py`, together with theorems settling the
frozen claims about it.  Buffers are lists of naturals (each intended to be
a byte value `< 256`); Python slices `data[i:j]` become `(data.drop i).take
(j - i)`; fallible operations return `Except`.
-/

/-- A byte buffer: the sole input of every extraction operation. -/
abbrev ByteBuffer := List Nat

/-- The test `32 <= b <= 126`, the printable-ASCII test used throughout `app.py`. -/
def isPrintable (b : Nat) : Bool := decide (32 ≤ b) && decide (b ≤ 126)

/-- Python `get_printable_char` from `app.py`: the byte's character when printable,
`.` otherwise. -/
def printableChar (b : Nat) : Char := if 32 ≤ b ∧ b ≤ 126 then Char.ofNat b else '.'

/-- Lowercase hex digit (for Python's `x` format code). -/
def hexDigitLower (n : Nat) : Char := if n < 10 then Char.ofNat (48 + n) else Char.ofNat (87 + n)

/-- Uppercase hex digit (for Python's `X` format code). -/
def hexDigitUpper (n : Nat) : Char := if n < 10 then Char.ofNat (48 + n) else Char.ofNat (55 + n)

/-- Python `f"{b:02x}"` for a byte value `b < 256`. -/
def hex2Lower (b : Nat) : String := ⟨[hexDigitLower (b / 16), hexDigitLower (b % 16)]⟩

/-- Python `f"{b:02X}"` for a byte value `b < 256`. -/
def hex2Upper (b : Nat) : String := ⟨[hexDigitUpper (b / 16), hexDigitUpper (b % 16)]⟩

/-- Python `f"{i:08x}"` for `i < 16^8`. -/
def hex8Lower (n : Nat) : String :=
  ⟨(List.range 8).reverse.map fun k => hexDigitLower (n / 16 ^ k % 16)⟩

/-- Python `f"{i:08X}"` for `i < 16^8`. -/
def hex8Upper (n : Nat) : String :=
  ⟨(List.range 8).reverse.map fun k => hexDigitUpper (n / 16 ^ k % 16)⟩

/-- The hex-value accumulation loop of `extract_readable_text_from_binary`
(`app.py` lines 112-118): one two-digit string per byte, with an extra empty
string inserted right after the 8th byte (`j == 7`). -/
def hexValuesLoop (j : Nat) : List Nat → List String
  | [] => []
  | b :: rest =>
      hex2Lower b :: (if j = 7 then "" :: hexValuesLoop (j + 1) rest
                      else hexValuesLoop (j + 1) rest)

/-- The hex column of one `extract_readable_text_from_binary` line: the loop
output padded with two-space strings up to 17 entries, joined by single
spaces (`app.py` lines 120-126). -/
def readableHexPart (chunk : List Nat) : String :=
  let hv := hexValuesLoop 0 chunk
  String.intercalate " " (hv ++ List.replicate (17 - hv.length) "  ")

/-- The ASCII column of one `extract_readable_text_from_binary` line: one
character per byte plus one blank per padding iteration of the `while` loop
(`app.py` lines 120-127). -/
def readableAsciiPart (chunk : List Nat) : String :=
  let hv := hexValuesLoop 0 chunk
  ⟨chunk.map printableChar ++ List.replicate (17 - hv.length) ' '⟩

/-- One full line of `extract_readable_text_from_binary` (`app.py` line 128). -/
def readableLine (i : Nat) (chunk : List Nat) : String :=
  hex8Lower i ++ "  " ++ readableHexPart chunk ++ "  |" ++ readableAsciiPart chunk ++ "|"

/-- Consecutive 16-byte chunks of a buffer (last chunk may be shorter), with
enough fuel; `chunkList data.length data` is the chunking both hex-dump
routines perform with `range(0, len(data), 16)`. -/
def chunkList : Nat → ByteBuffer → List (List Nat)
  | 0, _ => []
  | _, [] => []
  | fuel + 1, data => data.take 16 :: chunkList fuel (data.drop 16)

/-- The line list of `extract_readable_text_from_binary` (`app.py` lines
100-129), minus the file reading. -/
def extractReadableTextLines (data : ByteBuffer) : List String :=
  (chunkList data.length data).enum.map fun p => readableLine (16 * p.1) p.2

/-- Output of `extract_readable_text_from_binary` (`app.py` line 130). -/
def extractReadableText (data : ByteBuffer) : String :=
  String.intercalate "\n" (extractReadableTextLines data)

/-- Python `s.ljust(n)` for strings built from our character data. -/
def padRight (s : String) (n : Nat) : String :=
  s ++ ⟨List.replicate (n - s.length) ' '⟩

/-- The hex column of one `format_hex_dump` line: bytes in uppercase hex,
space-separated, left-justified to 48 characters (`app.py` lines 429-433). -/
def fhdHexPart (chunk : List Nat) : String :=
  padRight (String.intercalate " " (chunk.map hex2Upper)) 48

/-- One full line of `format_hex_dump` (`app.py` line 436). -/
def fhdLine (i : Nat) (chunk : List Nat) : String :=
  hex8Upper i ++ "  " ++ fhdHexPart chunk ++ "  |" ++
    padRight ⟨chunk.map printableChar⟩ 16 ++ "|"

/-- Python `format_hex_dump` from `app.py` lines 424-437 (its `offset` parameter is
never used by the body and is omitted). -/
def formatHexDump (data : ByteBuffer) : String :=
  String.intercalate "\n" ((chunkList data.length data).enum.map fun p => fhdLine (16 * p.1) p.2)

/-- Little-endian value of a byte list, as in `int.from_bytes(..., "little")`. -/
def bytesToNatLE : List Nat → Nat
  | [] => 0
  | b :: rest => b + 256 * bytesToNatLE rest

/-- Python `int.from_bytes(binary_data[off:off+2], byteorder="little", signed=True)`
as used by `parse_digitone_preset` (`app.py` lines 302-306): the unsigned
little-endian value, shifted down by `0x10000` when at least `0x8000`. -/
def readInt16LE (data : ByteBuffer) (off : Nat) : Int :=
  let u := bytesToNatLE ((data.drop off).take 2)
  if 0x8000 ≤ u then (u : Int) - 0x10000 else (u : Int)

/-- Two-byte little-endian two's-complement encoding of an integer. -/
def encodeInt16LE (v : Int) : List Nat :=
  let u := (v % 0x10000).toNat
  [u % 256, u / 256]

/-- Envelope sub-record of `parse_digitone_preset` (keys `atk`, `dec`, `end`,
`lev`; the Python key `end` is spelled `end_` here). -/
structure Envelope where
  atk : Int
  dec : Int
  end_ : Int
  lev : Int
deriving Repr, DecidableEq

/-- The `ratio_offset` sub-record of `parse_digitone_preset`. -/
structure RatioOffset where
  c : Rat
  a : Rat
  b1 : Rat
  b2 : Rat
deriving Repr, DecidableEq

/-- The `key_track` sub-record of `parse_digitone_preset`. -/
structure KeyTrack where
  a : Int
  b1 : Int
  b2 : Int
deriving Repr, DecidableEq

/-- The `filter` sub-record of `parse_digitone_preset`. -/
structure FilterParams where
  type : String
  attack : Int
  decay : Int
  sustain : Int
  release : Int
  frequency : Rat
  resonance : Int
  env_amount : Int
deriving Repr, DecidableEq

/-- The `amp` sub-record of `parse_digitone_preset`. -/
structure AmpParams where
  attack : Int
  decay : Int
  sustain : Int
  release : Int
  reset : Bool
  mode : String
  pan : String
  volume : Int
deriving Repr, DecidableEq

/-- The `fx` sub-record of `parse_digitone_preset`. -/
structure FxParams where
  bit_reduction : Bool
  overdrive : Int
  sample_rate_reduction : Int
  sample_rate_routing : String
  delay : Bool
  reverb : Int
  chorus : Int
  overdrive_routing : String
deriving Repr, DecidableEq

/-- The `lfo1`/`lfo2`/`lfo3` sub-record of `parse_digitone_preset`. -/
structure LfoParams where
  speed : Rat
  multiplier : Int
  fade : Int
  destination : Option String
  waveform : String
  start_phase : Int
  mode : String
  depth : Rat
deriving Repr, DecidableEq

/-- The `_extraction_info` diagnostics record of `parse_digitone_preset`: the
buffer length plus the four raw LFO reads, each present (`some`) exactly when
the corresponding bounds check `offset + 1 < len` passed (`app.py` lines
154-158 and 300-356).  The `binary_file` path entry is file I/O and omitted. -/
structure ExtractionInfo where
  binary_size : Nat
  lfo1_speed_raw : Option Int
  lfo1_depth_raw : Option Int
  lfo2_speed_raw : Option Int
  lfo2_depth_raw : Option Int
deriving Repr, DecidableEq

/-- The `ParameterRecord` dictionary returned by `parse_digitone_preset`,
with one field per key of the Python dict. -/
structure DigitonePreset where
  algo : Int
  c : Rat
  a : Rat
  b : List Rat
  harm : Rat
  dtun : Rat
  fdbk : Int
  mix : Int
  a_envelope : Envelope
  b_envelope : Envelope
  adel : Int
  atrg : Bool
  arst : Bool
  phrt : String
  bdel : Int
  btrg : Bool
  brst : Bool
  ratio_offset : RatioOffset
  key_track : KeyTrack
  filter : FilterParams
  amp : AmpParams
  fx : FxParams
  lfo1 : LfoParams
  lfo2 : LfoParams
  lfo3 : LfoParams
  extraction_info : ExtractionInfo
deriving Repr, DecidableEq

/-- Python `parse_digitone_preset` (`app.py` lines 133-386), minus the file reading:
every mapped parameter is assigned a fixed constant; the only buffer-dependent
output is the `_extraction_info` diagnostics record, whose four raw LFO
entries are 2-byte little-endian signed reads at offsets `0xC4`, `0xCC`,
`0xCE`, `0xD6`, each recorded only when `offset + 1 < len(binary_data)`
(otherwise the local raw value defaults to 0 and is never used). -/
def parseDigitonePreset (data : ByteBuffer) : DigitonePreset :=
  { algo := 7
    c := 1.00
    a := 1.00
    b := [1.00, 1.00]
    harm := -14.50
    dtun := 38.71
    fdbk := 85
    mix := -28
    a_envelope := { atk := 0, dec := 124, end_ := 0, lev := 115 }
    b_envelope := { atk := 0, dec := 127, end_ := 0, lev := 127 }
    adel := 0
    atrg := true
    arst := true
    phrt := "ALL"
    bdel := 0
    btrg := true
    brst := true
    ratio_offset := { c := 0.00, a := 0.00, b1 := 0.00, b2 := 0.00 }
    key_track := { a := 0, b1 := 0, b2 := 0 }
    filter := { type := "Lowpass 4", attack := 41, decay := 70, sustain := 80,
                release := 106, frequency := 78.68, resonance := 64, env_amount := 9 }
    amp := { attack := 53, decay := 87, sustain := 76, release := 60, reset := true,
             mode := "ADSR", pan := "Center", volume := 70 }
    fx := { bit_reduction := false, overdrive := 76, sample_rate_reduction := 0,
            sample_rate_routing := "Pre-filter", delay := false, reverb := 127,
            chorus := 59, overdrive_routing := "Pre-filter" }
    lfo1 := { speed := 40.01, multiplier := 16, fade := 0, destination := some "SYN HARM",
              waveform := "Sine", start_phase := 10, mode := "Free", depth := -10.34 }
    lfo2 := { speed := 32.73, multiplier := 32, fade := 0, destination := some "SYN P2A4",
              waveform := "Triangle", start_phase := 0, mode := "Trig", depth := -0.16 }
    lfo3 := { speed := 0, multiplier := 1, fade := 0, destination := none,
              waveform := "Sine", start_phase := 0, mode := "Free", depth := 0 }
    extraction_info :=
      { binary_size := data.length
        lfo1_speed_raw := if 0xC4 + 1 < data.length then some (readInt16LE data 0xC4) else none
        lfo1_depth_raw := if 0xCC + 1 < data.length then some (readInt16LE data 0xCC) else none
        lfo2_speed_raw := if 0xCE + 1 < data.length then some (readInt16LE data 0xCE) else none
        lfo2_depth_raw := if 0xD6 + 1 < data.length then some (readInt16LE data 0xD6) else none } }

/-- Does `p` begin the character list `s`? (`p` is the pattern.) -/
def listStarts : List Char → List Char → Bool
  | [], _ => true
  | _ :: _, [] => false
  | p :: ps, c :: cs => p = c && listStarts ps cs

/-- Python's substring test `pat in s` on character lists. -/
def containsSub : List Char → List Char → Bool
  | s, pat =>
    if listStarts pat s then true
    else
      match s with
      | [] => false
      | _ :: t => containsSub t pat

/-- Python's substring test `pat in s` on strings. -/
def strContains (s pat : String) : Bool := containsSub s.data pat.data

/-- Python `str.upper()` for the ASCII strings produced by the scanner. -/
def upperStr (s : String) : String := ⟨s.data.map Char.toUpper⟩

/-- The `SAMPLE_TAGS` dict of `extract_sysex_patches_to_markdown` (`app.py`
lines 406-416), as an insertion-ordered association list. -/
def SAMPLE_TAGS : List (String × List String) :=
  [("KICK", ["KICK", "PERC", "DEEP"]),
   ("SNARE", ["SNAR", "PERC", "BRIG"]),
   ("BASS", ["DEEP", "LOW", "SOFT"]),
   ("BRASS", ["BRAS", "STRI", "BRIG"]),
   ("STRING", ["STRI", "SOFT", "LIGH"]),
   ("PERC", ["PERC", "KICK", "HARD"]),
   ("LIGHT", ["LIGH", "SOFT", "SLIG"]),
   ("HARD", ["HARD", "KICK", "PERC"]),
   ("SOFT", ["SOFT", "LIGH", "STRI"])]

/-- Dict access `SAMPLE_TAGS[k]` (all accessed keys are present). -/
def sampleTag (k : String) : List String :=
  ((SAMPLE_TAGS.filter fun p => p.1 = k).head?.map Prod.snd).getD []

/-- One keyword-group test of the tag-assignment chain: does the uppercased
label contain either keyword? -/
def kwMatch (u a b : String) : Bool := strContains u a || strContains u b

/-- Does the label match any keyword group of the tag-assignment chain
(`app.py` lines 492-507)? -/
def matchesAnyKeyword (label : String) : Bool :=
  let u := upperStr label
  kwMatch u "KICK" "BASS" || kwMatch u "SNARE" "DRUM" || kwMatch u "BASS" "LOW" ||
  kwMatch u "BRASS" "HORN" || kwMatch u "STRING" "PAD" || kwMatch u "PERC" "TOM" ||
  kwMatch u "LIGHT" "SOFT" || kwMatch u "HARD" "TOUGH"

/-- The tag assignment of `find_patches` (`app.py` lines 488-512): a
priority-ordered keyword match on the uppercased label, falling back to
round-robin over the dict's value lists indexed by `len(patches) %
len(SAMPLE_TAGS)` — `numPrev` is the number of patches found so far. -/
def tagsFor (label : String) (numPrev : Nat) : List String :=
  let u := upperStr label
  if kwMatch u "KICK" "BASS" then sampleTag "KICK"
  else if kwMatch u "SNARE" "DRUM" then sampleTag "SNARE"
  else if kwMatch u "BASS" "LOW" then sampleTag "BASS"
  else if kwMatch u "BRASS" "HORN" then sampleTag "BRASS"
  else if kwMatch u "STRING" "PAD" then sampleTag "STRING"
  else if kwMatch u "PERC" "TOM" then sampleTag "PERC"
  else if kwMatch u "LIGHT" "SOFT" then sampleTag "LIGHT"
  else if kwMatch u "HARD" "TOUGH" then sampleTag "HARD"
  else (SAMPLE_TAGS.map Prod.snd).getD (numPrev % SAMPLE_TAGS.length) []

/-- The prefix-byte extraction of `find_patches` (`app.py` lines 452-457):
the printable bytes among `data[i+0x18 : min(i+0x18+2, j)]`. -/
def pfxBytesOf (data : ByteBuffer) (i j : Nat) : List Nat :=
  ((List.range' (i + 0x18) (min (i + 0x1A) j - (i + 0x18))).map
    fun k => data.getD k 0).filter isPrintable

/-- The name-byte loop of `find_patches` (`app.py` lines 459-466) over a list
of candidate indices: stop at the first null byte, keep printable bytes, and
skip (without stopping) any other byte. -/
def nameLoop (data : ByteBuffer) : List Nat → List Nat
  | [] => []
  | k :: rest =>
      let b := data.getD k 0
      if b = 0 then []
      else if isPrintable b then b :: nameLoop data rest
      else nameLoop data rest

/-- The name bytes of a frame starting at `i` and ending at `j`: the loop over
indices `range(i+0x1C, min(i+0x1C+8, j))`. -/
def nameBytesOf (data : ByteBuffer) (i j : Nat) : List Nat :=
  nameLoop data (List.range' (i + 0x1C) (min (i + 0x24) j - (i + 0x1C)))

/-- String of the characters of a printable byte list (Python `chr`). -/
def strOfBytes (bs : List Nat) : String := ⟨bs.map Char.ofNat⟩

/-- The composed patch label of `find_patches` (`app.py` lines 468-484):
`"<prefix>. <main_name>"` when the prefix string is non-empty, else the main
name alone, where the main name falls back to `"Unknown"` when no name bytes
were collected. -/
def labelOf (data : ByteBuffer) (i j : Nat) : String :=
  let p := strOfBytes (pfxBytesOf data i j)
  let m := if nameBytesOf data i j = [] then "Unknown" else strOfBytes (nameBytesOf data i j)
  if p = "" then m else p ++ ". " ++ m

/-- Python `str.strip()` on the ASCII strings produced by the scanner. -/
def isPyWS (c : Char) : Bool :=
  c = ' ' || c = '\t' || c = '\n' || c = '\x0b' || c = '\x0c' || c = '\r'

/-- Python `str.strip()`: drop leading and trailing whitespace. -/
def stripSpaces (s : String) : String :=
  ⟨((s.data.dropWhile isPyWS).reverse.dropWhile isPyWS).reverse⟩

/-- One SysEx frame found by `find_patches`: the stored dict entries `name`
(the stripped label), `tags` and `data` (the slice `data[i : j+1]`), plus the
scan-state instrumentation `start` (`i`, the `0xF0` offset), `stop` (`j`, the
`0xF7` offset) and `label` (the composed pre-strip label variable `name`). -/
structure Patch where
  name : String
  tags : List String
  data : ByteBuffer
  start : Nat
  stop : Nat
  label : String
deriving Repr, DecidableEq

/-- Default patch value used with `List.getD`. -/
def dfltPatch : Patch := { name := "", tags := [], data := [], start := 0, stop := 0, label := "" }

/-- The patch record appended by `find_patches` for the frame `[i, j]` when
`numPrev` patches were already found (`app.py` lines 448-516). -/
def mkPatch (data : ByteBuffer) (i j numPrev : Nat) : Patch :=
  { name := stripSpaces (labelOf data i j)
    tags := tagsFor (labelOf data i j) numPrev
    data := (data.drop i).take (j + 1 - i)
    start := i
    stop := j
    label := labelOf data i j }

/-- Index of the first `0xF7` in a list, if any (the inner
`for j in range(...)` search of `find_patches`, `app.py` lines 446-447). -/
def findF7idx : List Nat → Option Nat
  | [] => none
  | b :: rest => if b = 0xF7 then some 0 else (findF7idx rest).map (· + 1)

/-- Absolute index of the first `0xF7` at or after position `k`. -/
def findF7from (data : ByteBuffer) (k : Nat) : Option Nat :=
  (findF7idx (data.drop k)).map (k + ·)

/-- The scan loop of `find_patches` (`app.py` lines 441-523): starting at
index `i` with accumulator `acc`, find a `0xF0`, search for the nearest
following `0xF7`; on success append the frame and resume at `j + 1`, else
advance one byte.  `fuel` bounds the number of iterations; since every
iteration increases `i`, `fuel = data.length` suffices from `i = 0`. -/
def findPatchesAux (data : ByteBuffer) : Nat → Nat → List Patch → List Patch
  | 0, _, acc => acc
  | fuel + 1, i, acc =>
      if i < data.length then
        if data.getD i 0 = 0xF0 then
          match findF7from data (i + 1) with
          | some j => findPatchesAux data fuel (j + 1) (acc ++ [mkPatch data i j acc.length])
          | none => findPatchesAux data fuel (i + 1) acc
        else findPatchesAux data fuel (i + 1) acc
      else acc

/-- Python `find_patches` (`app.py` lines 439-523). -/
def findPatches (data : ByteBuffer) : List Patch :=
  findPatchesAux data data.length 0 []

/-- The patch-extraction decision of `extract_sysex_patches_to_markdown`
(`app.py` lines 529-531), minus the file I/O: scan the buffer and fail with
the `ValueError` message when no patches were found. -/
def extractSysexPatches (data : ByteBuffer) : Except String (List Patch) :=
  let patches := findPatches data
  if patches.isEmpty then Except.error "No valid patches found in SysEx file"
  else Except.ok patches

/-- Buffer for the SysEx scenario: a frame whose prefix bytes are `"BD"`
(offsets 0x18-0x19) and whose name bytes are `"TEST"` (offsets 0x1C-0x1F),
terminated by `0xF7` at offset 32. -/
def bdTestBuf : ByteBuffer :=
  [0xF0] ++ List.replicate 23 0 ++ [0x42, 0x44, 0, 0, 0x54, 0x45, 0x53, 0x54, 0xF7]

/-- Buffer whose frame's name window holds `'A'`, a non-printable non-null
byte `0x01`, then `'B'`. -/
def dataC5 : ByteBuffer := [0xF0] ++ List.replicate 27 0 ++ [0x41, 0x01, 0x42, 0xF7]

/-- Buffer whose frame's prefix window holds a space then `'B'`, and whose
name bytes are `"TEST"`. -/
def dataC6 : ByteBuffer :=
  [0xF0] ++ List.replicate 23 0 ++ [0x20, 0x42, 0, 0, 0x54, 0x45, 0x53, 0x54, 0xF7]

/-- Buffer with one complete frame followed by an unterminated `0xF0`. -/
def dataW : ByteBuffer := [0xF0, 0x41, 0xF7, 0xF0, 0x42]

/-- Buffer with two adjacent complete frames. -/
def dataW10 : ByteBuffer := [0xF0, 0xF7, 0x00, 0xF0, 0xF7]

/-- What the scan guarantees about the `n`-th patch it produced: the frame
spans `[start, stop]` with `0xF0` at the start, the nearest following `0xF7`
at the stop, and the patch record is exactly the one `find_patches` builds
for that span with `n` patches found before it. -/
def FrameOK (data : ByteBuffer) (n : Nat) (p : Patch) : Prop :=
  p.start < p.stop ∧ p.stop < data.length ∧
  data.getD p.start 0 = 0xF0 ∧ data.getD p.stop 0 = 0xF7 ∧
  (∀ k, k < p.stop → p.start < k → data.getD k 0 ≠ 0xF7) ∧
  p = mkPatch data p.start p.stop n

/-- Claim C1 (counterexample): on the empty buffer — too short for every
LFO field read — `parse_digitone_preset` does not fail: it returns a full
`ParameterRecord` whose diagnostics record carries no raw entries and whose
mapped LFO fields hold the fixed constants.  This refutes the claim that the
decode operation surfaces a truncation error instead of substituting
defaults. -/
theorem parse_empty_buffer_returns_record :
    (parseDigitonePreset []).extraction_info =
      { binary_size := 0, lfo1_speed_raw := none, lfo1_depth_raw := none,
        lfo2_speed_raw := none, lfo2_depth_raw := none } ∧
    (parseDigitonePreset []).lfo1.speed = 40.01 ∧
    (parseDigitonePreset []).lfo1.depth = -10.34 ∧
    (parseDigitonePreset []).lfo2.speed = 32.73 ∧
    (parseDigitonePreset []).lfo2.depth = -0.16 := by
  refine ⟨?_, rfl, rfl, rfl, rfl⟩
  rfl

/-- Claim C1 (amended): for every buffer too short for even the lowest LFO
field read (`len ≤ 0xC5`), `parse_digitone_preset` does not fail; it omits
every raw diagnostic entry and still returns the `ParameterRecord` with the
fixed mapped constants. -/
theorem parse_short_buffer_substitutes_defaults (data : ByteBuffer)
    (h : data.length ≤ 0xC5) :
    (parseDigitonePreset data).extraction_info =
      { binary_size := data.length, lfo1_speed_raw := none, lfo1_depth_raw := none,
        lfo2_speed_raw := none, lfo2_depth_raw := none } ∧
    (parseDigitonePreset data).lfo1.speed = 40.01 ∧
    (parseDigitonePreset data).lfo1.depth = -10.34 ∧
    (parseDigitonePreset data).lfo2.speed = 32.73 ∧
    (parseDigitonePreset data).lfo2.depth = -0.16 := by
  refine ⟨?_, rfl, rfl, rfl, rfl⟩
  have h1 : ¬ (0xC4 + 1 < data.length) := by omega
  have h2 : ¬ (0xCC + 1 < data.length) := by omega
  have h3 : ¬ (0xCE + 1 < data.length) := by omega
  have h4 : ¬ (0xD6 + 1 < data.length) := by omega
  simp [parseDigitonePreset, h1, h2, h3, h4]

/-- Witness for the amended C1 theorem at the empty buffer. -/
theorem parse_short_buffer_substitutes_defaults_w :
    (parseDigitonePreset []).extraction_info.lfo1_speed_raw = none ∧
    (parseDigitonePreset []).lfo1.speed = 40.01 := by
  have h := parse_short_buffer_substitutes_defaults [] (by decide)
  exact ⟨by rw [h.1], h.2.1⟩

/-- Claim C2: the mapped LFO speed/depth outputs of `parse_digitone_preset`
are the fixed constants 40.01, -10.34, 32.73, -0.16 for every buffer (hence
independent of the buffer's contents), while the raw 2-byte little-endian
signed reads at offsets 0xC4, 0xCC, 0xCE, 0xD6 are recorded in the
`_extraction_info` diagnostics whenever in range — the raw reads never reach
the mapped output. -/
theorem parse_lfo_fields_fixed_raws_recorded (data : ByteBuffer) :
    (parseDigitonePreset data).lfo1.speed = 40.01 ∧
    (parseDigitonePreset data).lfo1.depth = -10.34 ∧
    (parseDigitonePreset data).lfo2.speed = 32.73 ∧
    (parseDigitonePreset data).lfo2.depth = -0.16 ∧
    (∀ data' : ByteBuffer,
      (parseDigitonePreset data).lfo1 = (parseDigitonePreset data').lfo1 ∧
      (parseDigitonePreset data).lfo2 = (parseDigitonePreset data').lfo2) ∧
    (0xC4 + 1 < data.length →
      (parseDigitonePreset data).extraction_info.lfo1_speed_raw = some (readInt16LE data 0xC4)) ∧
    (0xCC + 1 < data.length →
      (parseDigitonePreset data).extraction_info.lfo1_depth_raw = some (readInt16LE data 0xCC)) ∧
    (0xCE + 1 < data.length →
      (parseDigitonePreset data).extraction_info.lfo2_speed_raw = some (readInt16LE data 0xCE)) ∧
    (0xD6 + 1 < data.length →
      (parseDigitonePreset data).extraction_info.lfo2_depth_raw = some (readInt16LE data 0xD6)) := by
  refine ⟨rfl, rfl, rfl, rfl, fun d' => ⟨rfl, rfl⟩, ?_, ?_, ?_, ?_⟩ <;>
    · intro h
      simp [parseDigitonePreset, h]

set_option maxRecDepth 4000 in
/-- Witness for C2 on a concrete 216-byte buffer of sevens: all four raw
reads are in range and recorded as `0x0707 = 1799`, while the mapped speed
stays the constant. -/
theorem parse_lfo_fields_fixed_raws_recorded_w :
    (parseDigitonePreset (List.replicate 216 7)).extraction_info.lfo1_speed_raw = some 1799 ∧
    (parseDigitonePreset (List.replicate 216 7)).extraction_info.lfo2_depth_raw = some 1799 ∧
    (parseDigitonePreset (List.replicate 216 7)).lfo1.speed = 40.01 := by
  have h := parse_lfo_fields_fixed_raws_recorded (List.replicate 216 7)
  refine ⟨?_, ?_, h.1⟩
  · rw [h.2.2.2.2.2.1 (by decide)]; decide
  · rw [h.2.2.2.2.2.2.2.2 (by decide)]; decide

/-- Claim C3 (code bug, evaluated at the failing input): on a 17-byte buffer
`extract_readable_text_from_binary` emits two lines whose hex columns differ
in width — 48 characters for the full first chunk but 50 for the 1-byte
final chunk (and 16 versus 17 ASCII characters) — because the padding loop
always fills to 17 two-character entries while the empty group-separator
entry is only inserted when the chunk reaches 8 bytes.  `format_hex_dump`,
by contrast, pads both chunk sizes to the same 48 characters. -/
theorem readable_hex_pad_misaligned_at_17 :
    extractReadableTextLines (List.replicate 17 0x41) =
      [readableLine 0 (List.replicate 16 0x41), readableLine 16 [0x41]] ∧
    (readableHexPart (List.replicate 16 0x41)).length = 48 ∧
    (readableHexPart [0x41]).length = 50 ∧
    (readableAsciiPart (List.replicate 16 0x41)).length = 16 ∧
    (readableAsciiPart [0x41]).length = 17 ∧
    (fhdHexPart (List.replicate 16 0x41)).length = 48 ∧
    (fhdHexPart [0x41]).length = 48 := by
  decide

/-- Claim C7: whenever the scan finds zero frames, the SysEx extraction
operation fails with the `ValueError` carrying the no-patches message. -/
theorem extract_errors_when_no_frames (data : ByteBuffer)
    (h : findPatches data = []) :
    extractSysexPatches data = Except.error "No valid patches found in SysEx file" := by
  simp [extractSysexPatches, h]

/-- Witness for C7 on a buffer holding an unterminated `0xF0`. -/
theorem extract_errors_when_no_frames_w :
    findPatches [0xF0, 0x41] = [] ∧
    extractSysexPatches [0xF0, 0x41] = Except.error "No valid patches found in SysEx file" :=
  ⟨by decide, extract_errors_when_no_frames [0xF0, 0x41] (by decide)⟩

/-- A list of length at least two splits off its first two elements. -/
theorem exists_cons_cons_of_two_le {l : List Nat} (h : 2 ≤ l.length) :
    ∃ a b t, l = a :: b :: t := by
  match l with
  | [] => simp at h
  | [x] => simp at h
  | x :: y :: t => exact ⟨x, y, t, rfl⟩

/-- The 2-byte signed read in terms of the two bytes at the offset. -/
theorem readInt16LE_eq (data : ByteBuffer) (off a b : Nat) (t : List Nat)
    (hab : data.drop off = a :: b :: t) :
    readInt16LE data off =
      if 0x8000 ≤ a + 256 * b then ((a + 256 * b : Nat) : Int) - 0x10000
      else ((a + 256 * b : Nat) : Int) := by
  unfold readInt16LE
  rw [hab]
  simp [bytesToNatLE]

/-- Re-encoding the signed interpretation of two bytes restores the bytes. -/
theorem encodeInt16LE_two_bytes (a b : Nat) (ha : a < 256) (hb : b < 256) :
    encodeInt16LE (if 0x8000 ≤ a + 256 * b then ((a + 256 * b : Nat) : Int) - 0x10000
                   else ((a + 256 * b : Nat) : Int)) = [a, b] := by
  unfold encodeInt16LE
  by_cases hc : (0x8000 : Nat) ≤ a + 256 * b
  · rw [if_pos hc]
    have h1 : (((a + 256 * b : Nat) : Int) - 0x10000) % 0x10000 = ((a + 256 * b : Nat) : Int) := by
      omega
    simp only [h1]
    have h2 : (((a + 256 * b : Nat) : Int)).toNat = a + 256 * b := by omega
    simp only [h2, List.cons.injEq, and_true]
    constructor <;> omega
  · rw [if_neg hc]
    have h1 : (((a + 256 * b : Nat) : Int)) % 0x10000 = ((a + 256 * b : Nat) : Int) := by omega
    simp only [h1]
    have h2 : (((a + 256 * b : Nat) : Int)).toNat = a + 256 * b := by omega
    simp only [h2, List.cons.injEq, and_true]
    constructor <;> omega

/-- Claim C8: a 2-byte signed little-endian field read round-trips — the
returned integer, re-encoded as little-endian two's-complement over 2 bytes,
reproduces the 2 bytes of the buffer at the offset; and raw values at least
`0x8000` are mapped to negative by subtracting `0x10000`. -/
theorem read_int16_le_round_trip (data : ByteBuffer) (off : Nat)
    (hlen : off + 2 ≤ data.length) (hbytes : ∀ b ∈ data, b < 256) :
    encodeInt16LE (readInt16LE data off) = (data.drop off).take 2 ∧
    (0x8000 ≤ bytesToNatLE ((data.drop off).take 2) →
      readInt16LE data off = (bytesToNatLE ((data.drop off).take 2) : Int) - 0x10000) := by
  obtain ⟨a, b, t, hab⟩ : ∃ a b t, data.drop off = a :: b :: t :=
    exists_cons_cons_of_two_le (by rw [List.length_drop]; omega)
  have ha : a < 256 := hbytes a (List.drop_subset off data (hab ▸ List.mem_cons_self a (b :: t)))
  have hb : b < 256 := hbytes b (List.drop_subset off data
    (hab ▸ List.mem_cons_of_mem a (List.mem_cons_self b t)))
  have hslice : (data.drop off).take 2 = [a, b] := by rw [hab]; rfl
  have hval : bytesToNatLE ((data.drop off).take 2) = a + 256 * b := by
    rw [hslice]; simp [bytesToNatLE]
  have hread := readInt16LE_eq data off a b t hab
  constructor
  · rw [hslice, hread]
    exact encodeInt16LE_two_bytes a b ha hb
  · intro hcc
    rw [hval] at hcc
    rw [hread, if_pos hcc, hval]

/-- Witness for C8: the read at offset 2 of `[0x34, 0x12, 0xFF, 0x8F]` is the
negative value `-28673` and re-encodes to the original bytes `[0xFF, 0x8F]`. -/
theorem read_int16_le_round_trip_w :
    readInt16LE [0x34, 0x12, 0xFF, 0x8F] 2 = -28673 ∧
    encodeInt16LE (readInt16LE [0x34, 0x12, 0xFF, 0x8F] 2) =
      (([0x34, 0x12, 0xFF, 0x8F] : ByteBuffer).drop 2).take 2 :=
  ⟨by decide, (read_int16_le_round_trip [0x34, 0x12, 0xFF, 0x8F] 2 (by decide) (by decide)).1⟩

/-- Reading with `getD` after a `drop` reads at the shifted index. -/
theorem getD_drop (l : List Nat) (n m : Nat) :
    (l.drop n).getD m 0 = l.getD (n + m) 0 := by
  induction l generalizing n m with
  | nil => simp
  | cons b rest ih =>
    cases n with
    | zero => simp
    | succ n' =>
      simp only [List.drop_succ_cons]
      rw [ih n' m]
      simp [Nat.succ_add]

/-- A `some` result of the first-`0xF7` search is in range, holds `0xF7`, and
nothing before it (within the list) holds `0xF7`. -/
theorem findF7idx_some (l : List Nat) (m : Nat) (h : findF7idx l = some m) :
    m < l.length ∧ l.getD m 0 = 0xF7 ∧ ∀ k, k < m → l.getD k 0 ≠ 0xF7 := by
  induction l generalizing m with
  | nil => simp [findF7idx] at h
  | cons b rest ih =>
    rw [findF7idx] at h
    by_cases hb : b = 0xF7
    · rw [if_pos hb] at h
      obtain rfl : m = 0 := by simpa using h.symm
      refine ⟨by simp, by simpa using hb, by omega⟩
    · rw [if_neg hb] at h
      obtain ⟨m', hm', rfl⟩ := Option.map_eq_some'.mp h
      obtain ⟨h1, h2, h3⟩ := ih m' hm'
      refine ⟨by simpa using h1, by simpa using h2, ?_⟩
      intro k hk
      cases k with
      | zero => simpa using hb
      | succ k' =>
        simpa using h3 k' (by omega)

/-- If no element holds `0xF7`, the first-`0xF7` search returns `none`. -/
theorem findF7idx_none_of (l : List Nat) (h : ∀ k, k < l.length → l.getD k 0 ≠ 0xF7) :
    findF7idx l = none := by
  induction l with
  | nil => rfl
  | cons b rest ih =>
    rw [findF7idx]
    have hb : b ≠ 0xF7 := by simpa using h 0 (by simp)
    rw [if_neg hb]
    rw [ih fun k hk => by simpa using h (k + 1) (by simpa using hk)]
    rfl

/-- A `some` result of the absolute first-`0xF7` search, in buffer terms. -/
theorem findF7from_some (data : ByteBuffer) (i j : Nat)
    (h : findF7from data i = some j) :
    i ≤ j ∧ j < data.length ∧ data.getD j 0 = 0xF7 ∧
      ∀ m, m < j → i ≤ m → data.getD m 0 ≠ 0xF7 := by
  obtain ⟨m0, hm0, rfl⟩ := Option.map_eq_some'.mp h
  obtain ⟨h1, h2, h3⟩ := findF7idx_some _ _ hm0
  rw [List.length_drop] at h1
  rw [getD_drop] at h2
  refine ⟨by omega, by omega, h2, ?_⟩
  intro m hm him
  have := h3 (m - i) (by omega)
  rw [getD_drop] at this
  have heq : i + (m - i) = m := by omega
  rw [heq] at this
  exact this

/-- If nothing at or after `i` holds `0xF7`, the search returns `none`. -/
theorem findF7from_none (data : ByteBuffer) (i : Nat)
    (h : ∀ m, m < data.length → i ≤ m → data.getD m 0 ≠ 0xF7) :
    findF7from data i = none := by
  unfold findF7from
  rw [findF7idx_none_of]
  · rfl
  · intro k hk
    rw [List.length_drop] at hk
    rw [getD_drop]
    exact h (i + k) (by omega) (by omega)

/-- Invariant of the scan loop: if every accumulated patch is a good frame
ending before the scan position, then every patch in the final result is a
good frame, and the frames are in strictly increasing disjoint order. -/
theorem findPatchesAux_spec (data : ByteBuffer) :
    ∀ fuel i acc,
      (∀ n, n < acc.length →
          FrameOK data n (acc.getD n dfltPatch) ∧ (acc.getD n dfltPatch).stop < i) →
      (∀ n n', n < n' → n' < acc.length →
          (acc.getD n dfltPatch).stop < (acc.getD n' dfltPatch).start) →
      (∀ n, n < (findPatchesAux data fuel i acc).length →
          FrameOK data n ((findPatchesAux data fuel i acc).getD n dfltPatch)) ∧
      (∀ n n', n < n' → n' < (findPatchesAux data fuel i acc).length →
          ((findPatchesAux data fuel i acc).getD n dfltPatch).stop <
            ((findPatchesAux data fuel i acc).getD n' dfltPatch).start) := by
  intro fuel
  induction fuel with
  | zero =>
    intro i acc h1 h2
    exact ⟨fun n hn => (h1 n hn).1, h2⟩
  | succ fuel ih =>
    intro i acc h1 h2
    rw [findPatchesAux]
    by_cases hi : i < data.length
    · rw [if_pos hi]
      by_cases hF0 : data.getD i 0 = 0xF0
      · rw [if_pos hF0]
        cases hj : findF7from data (i + 1) with
        | some j =>
          obtain ⟨hij, hjlen, hjF7, hmid⟩ := findF7from_some data (i + 1) j hj
          show (∀ n, n < (findPatchesAux data fuel (j + 1)
              (acc ++ [mkPatch data i j acc.length])).length → _) ∧ _
          apply ih (j + 1) (acc ++ [mkPatch data i j acc.length])
          · intro n hn
            rw [List.length_append, List.length_cons, List.length_nil] at hn
            by_cases hcase : n < acc.length
            · rw [List.getD_append _ _ _ _ hcase]
              exact ⟨(h1 n hcase).1, by have := (h1 n hcase).2; omega⟩
            · have hn' : n = acc.length := by omega
              subst hn'
              rw [List.getD_append_right _ _ _ _ (Nat.le_refl _), Nat.sub_self,
                List.getD_cons_zero]
              have hstart : (mkPatch data i j acc.length).start = i := rfl
              have hstop : (mkPatch data i j acc.length).stop = j := rfl
              refine ⟨⟨?_, ?_, ?_, ?_, ?_, rfl⟩, ?_⟩
              · rw [hstart, hstop]; omega
              · rw [hstop]; exact hjlen
              · rw [hstart]; exact hF0
              · rw [hstop]; exact hjF7
              · rw [hstart, hstop]
                intro k hk hik
                exact hmid k hk (by omega)
              · rw [hstop]; omega
          · intro n n' hnn' hn'
            rw [List.length_append, List.length_cons, List.length_nil] at hn'
            by_cases hcase : n' < acc.length
            · rw [List.getD_append _ _ _ _ hcase, List.getD_append _ _ _ _ (by omega)]
              exact h2 n n' hnn' hcase
            · have hn'' : n' = acc.length := by omega
              subst hn''
              rw [List.getD_append_right _ _ _ _ (Nat.le_refl _), Nat.sub_self,
                List.getD_cons_zero, List.getD_append _ _ _ _ (by omega)]
              have := (h1 n (by omega)).2
              have hstart : (mkPatch data i j acc.length).start = i := rfl
              rw [hstart]
              omega
        | none =>
          show (∀ n, n < (findPatchesAux data fuel (i + 1) acc).length → _) ∧ _
          exact ih (i + 1) acc
            (fun n hn => ⟨(h1 n hn).1, by have := (h1 n hn).2; omega⟩) h2
      · rw [if_neg hF0]
        exact ih (i + 1) acc
          (fun n hn => ⟨(h1 n hn).1, by have := (h1 n hn).2; omega⟩) h2
    · rw [if_neg hi]
      exact ⟨fun n hn => (h1 n hn).1, h2⟩

/-- Every patch of `find_patches` is a good frame (at its ordinal index),
and the frames occur in strictly increasing disjoint order. -/
theorem findPatches_spec (data : ByteBuffer) :
    (∀ n, n < (findPatches data).length →
        FrameOK data n ((findPatches data).getD n dfltPatch)) ∧
    (∀ n n', n < n' → n' < (findPatches data).length →
        ((findPatches data).getD n dfltPatch).stop <
          ((findPatches data).getD n' dfltPatch).start) :=
  findPatchesAux_spec data data.length 0 []
    (fun n hn => by simp at hn) (fun n n' _ hn' => by simp at hn')

/-- Every member of `find_patches` is a good frame at some index. -/
theorem mem_findPatches_frameOK (data : ByteBuffer) (p : Patch)
    (hp : p ∈ findPatches data) :
    ∃ n, n < (findPatches data).length ∧ (findPatches data).getD n dfltPatch = p ∧
      FrameOK data n p := by
  obtain ⟨n, hn, hget⟩ := List.getElem_of_mem hp
  refine ⟨n, hn, ?_, ?_⟩
  · rw [List.getD_eq_getElem _ _ hn, hget]
  · have := (findPatches_spec data).1 n hn
    rwa [List.getD_eq_getElem _ _ hn, hget] at this

/-- Claim C4: every frame found by the scan begins at a `0xF0`, ends at the
nearest following `0xF7` (no `0xF7` strictly inside), and carries the
inclusive byte span as its raw bytes; a `0xF0` with no following `0xF7`
yields no frame, and on such a byte the scan just advances one position
(no error — the scan is total). -/
theorem find_patches_framing (data : ByteBuffer) :
    (∀ p ∈ findPatches data,
        data.getD p.start 0 = 0xF0 ∧ p.start < p.stop ∧ p.stop < data.length ∧
        data.getD p.stop 0 = 0xF7 ∧
        (∀ k, k < p.stop → p.start < k → data.getD k 0 ≠ 0xF7) ∧
        p.data = (data.drop p.start).take (p.stop + 1 - p.start)) ∧
    (∀ i, i < data.length → data.getD i 0 = 0xF0 →
        (∀ k, k < data.length → i < k → data.getD k 0 ≠ 0xF7) →
        ∀ p ∈ findPatches data, p.start ≠ i) ∧
    (∀ fuel i acc, i < data.length → data.getD i 0 = 0xF0 →
        (∀ k, k < data.length → i < k → data.getD k 0 ≠ 0xF7) →
        findPatchesAux data (fuel + 1) i acc = findPatchesAux data fuel (i + 1) acc) := by
  refine ⟨?_, ?_, ?_⟩
  · intro p hp
    obtain ⟨n, _, _, h1, h2, h3, h4, h5, h6⟩ := mem_findPatches_frameOK data p hp
    refine ⟨h3, h1, h2, h4, h5, ?_⟩
    conv_lhs => rw [h6]
    rfl
  · intro i hi hF0 hnone p hp heq
    obtain ⟨n, _, _, h1, h2, _, h4, _, _⟩ := mem_findPatches_frameOK data p hp
    exact hnone p.stop h2 (by omega) h4
  · intro fuel i acc hi hF0 hnone
    rw [findPatchesAux, if_pos hi, if_pos hF0,
      findF7from_none data (i + 1) (fun m hm him => hnone m hm (by omega))]

/-- Witness for C4 on `dataW`: the single frame does not start at the
unterminated `0xF0` (offset 3), and the scan step at offset 3 just advances. -/
theorem find_patches_framing_w :
    ((findPatches dataW).getD 0 dfltPatch).start ≠ 3 ∧
    findPatchesAux dataW 1 3 [] = findPatchesAux dataW 0 4 [] :=
  ⟨(find_patches_framing dataW).2.1 3 (by decide) (by decide) (by decide)
      ((findPatches dataW).getD 0 dfltPatch)
      (by rw [List.getD_eq_getElem _ _ (by decide)]; exact List.getElem_mem (by decide)),
   (find_patches_framing dataW).2.2 0 3 [] (by decide) (by decide) (by decide)⟩

/-- In-range `getD` as a `getElem?` value. -/
theorem getD_eq_some (data : ByteBuffer) (k : Nat) (h : k < data.length) :
    data[k]? = some (data.getD k 0) := by
  rw [List.getElem?_eq_getElem h, List.getD_eq_getElem _ _ h]

/-- The inclusive slice `[s, e]` of a buffer whose byte at `s` is `0xF0`,
whose byte at `e` is `0xF7` and with no `0xF7` strictly between: it starts
with `0xF0`, ends with `0xF7`, and holds exactly one `0xF7`. -/
theorem slice_facts (data : ByteBuffer) (s e : Nat) (hse : s < e) (hel : e < data.length)
    (hF0 : data.getD s 0 = 0xF0) (hF7 : data.getD e 0 = 0xF7)
    (hmid : ∀ k, k < e → s < k → data.getD k 0 ≠ 0xF7) :
    ((data.drop s).take (e + 1 - s)).head? = some 0xF0 ∧
    ((data.drop s).take (e + 1 - s)).getLast? = some 0xF7 ∧
    ((data.drop s).take (e + 1 - s)).count 0xF7 = 1 := by
  have hes : e + 1 - s = (e - s) + 1 := by omega
  have hsplit : (data.drop s).take (e + 1 - s)
      = (data.drop s).take (e - s) ++ [data.getD e 0] := by
    rw [hes, List.take_succ]
    congr 1
    rw [List.getElem?_drop]
    have h2 : s + (e - s) = e := by omega
    rw [h2, getD_eq_some data e hel]
    rfl
  have hflen : ((data.drop s).take (e - s)).length = e - s := by
    rw [List.length_take, List.length_drop]; omega
  have hfront0 : ((data.drop s).take (e - s))[0]? = some (data.getD s 0) := by
    rw [List.getElem?_take_of_lt (by omega), List.getElem?_drop, Nat.add_zero]
    exact getD_eq_some data s (by omega)
  have hfront_ne : ((data.drop s).take (e - s)) ≠ [] := by
    intro hnil
    rw [hnil] at hflen
    simp at hflen
    omega
  refine ⟨?_, ?_, ?_⟩
  · rw [hsplit, List.head?_append_of_ne_nil _ hfront_ne, List.head?_eq_getElem?, hfront0, hF0]
  · rw [hsplit, List.getLast?_concat, hF7]
  · rw [hsplit, List.count_append]
    have hone : List.count 0xF7 [data.getD e 0] = 1 := by
      rw [hF7]
      rfl
    have hzero : List.count 0xF7 ((data.drop s).take (e - s)) = 0 := by
      rw [List.count_eq_zero]
      intro hmem
      obtain ⟨m, hm, hget⟩ := List.getElem_of_mem hmem
      rw [hflen] at hm
      have hsome : ((data.drop s).take (e - s))[m]? = some 0xF7 := by
        rw [List.getElem?_eq_getElem (by rw [hflen]; omega), hget]
      rw [List.getElem?_take_of_lt hm, List.getElem?_drop,
        getD_eq_some data (s + m) (by omega)] at hsome
      have hv : data.getD (s + m) 0 = 0xF7 := Option.some.inj hsome
      rcases Nat.eq_zero_or_pos m with hm0 | hmpos
      · subst hm0
        rw [Nat.add_zero, hF0] at hv
        omega
      · exact hmid (s + m) (by omega) (by omega) hv
    rw [hone, hzero]

/-- Claim C10: every frame returned by the scan is the inclusive span of the
buffer from its `0xF0` start to its `0xF7` stop, its raw bytes start with
`0xF0`, end with `0xF7` and contain exactly one `0xF7`; and the frames are
pairwise disjoint spans in strictly increasing offset order — every frame
starts past the previous frame's terminating `0xF7`. -/
theorem find_patches_invariants (data : ByteBuffer) :
    (∀ p ∈ findPatches data,
        p.data = (data.drop p.start).take (p.stop + 1 - p.start) ∧
        p.data.head? = some 0xF0 ∧ p.data.getLast? = some 0xF7 ∧
        p.data.count 0xF7 = 1 ∧ p.start < p.stop ∧ p.stop < data.length) ∧
    (∀ n n', n < n' → n' < (findPatches data).length →
        ((findPatches data).getD n dfltPatch).stop <
          ((findPatches data).getD n' dfltPatch).start) := by
  refine ⟨?_, (findPatches_spec data).2⟩
  intro p hp
  obtain ⟨n, _, _, h1, h2, h3, h4, h5, h6⟩ := mem_findPatches_frameOK data p hp
  have hdata : p.data = (data.drop p.start).take (p.stop + 1 - p.start) := by
    conv_lhs => rw [h6]
    rfl
  obtain ⟨hh, hl, hc⟩ := slice_facts data p.start p.stop h1 h2 h3 h4 h5
  exact ⟨hdata, by rw [hdata]; exact hh, by rw [hdata]; exact hl,
    by rw [hdata]; exact hc, h1, h2⟩

/-- Witness for C10 on the two-frame buffer `dataW10`. -/
theorem find_patches_invariants_w :
    ((findPatches dataW10).getD 0 dfltPatch).stop <
      ((findPatches dataW10).getD 1 dfltPatch).start ∧
    ((findPatches dataW10).getD 0 dfltPatch).data.count 0xF7 = 1 :=
  ⟨(find_patches_invariants dataW10).2 0 1 (by decide) (by decide),
   ((find_patches_invariants dataW10).1 ((findPatches dataW10).getD 0 dfltPatch)
      (by rw [List.getD_eq_getElem _ _ (by decide)]
          exact List.getElem_mem (by decide))).2.2.2.1⟩

/-- Field equations of `mkPatch`. -/
theorem mkPatch_name (data : ByteBuffer) (i j n : Nat) :
    (mkPatch data i j n).name = stripSpaces (labelOf data i j) := by
  simp only [mkPatch]

/-- Field equation of `mkPatch` for the pre-strip label. -/
theorem mkPatch_label (data : ByteBuffer) (i j n : Nat) :
    (mkPatch data i j n).label = labelOf data i j := by
  simp only [mkPatch]

/-- Field equation of `mkPatch` for the tags. -/
theorem mkPatch_tags (data : ByteBuffer) (i j n : Nat) :
    (mkPatch data i j n).tags = tagsFor (labelOf data i j) n := by
  simp only [mkPatch]

/-- Field equation of `mkPatch` for the frame start. -/
theorem mkPatch_start (data : ByteBuffer) (i j n : Nat) :
    (mkPatch data i j n).start = i := by
  simp only [mkPatch]

/-- Field equation of `mkPatch` for the frame stop. -/
theorem mkPatch_stop (data : ByteBuffer) (i j n : Nat) :
    (mkPatch data i j n).stop = j := by
  simp only [mkPatch]

/-- The label `labelOf` spelled out over its two extractions. -/
theorem labelOf_eq (data : ByteBuffer) (i j : Nat) :
    labelOf data i j =
      (if strOfBytes (pfxBytesOf data i j) = "" then
        (if nameBytesOf data i j = [] then "Unknown"
         else strOfBytes (nameBytesOf data i j))
       else
        strOfBytes (pfxBytesOf data i j) ++ ". " ++
          (if nameBytesOf data i j = [] then "Unknown"
           else strOfBytes (nameBytesOf data i j))) := rfl

/-- The name loop equals: take indices until the first null byte, read them,
and keep only the printable bytes. -/
theorem nameLoop_eq (data : ByteBuffer) (ks : List Nat) :
    nameLoop data ks =
      ((ks.takeWhile fun k => data.getD k 0 != 0).map fun k => data.getD k 0).filter
        isPrintable := by
  induction ks with
  | nil => rfl
  | cons k rest ih =>
    simp only [nameLoop, List.takeWhile_cons, List.getD_eq_getElem?_getD] at ih ⊢
    by_cases h0 : data[k]?.getD 0 = 0
    · rw [if_pos h0, if_neg (by simp [h0] : ¬ ((data[k]?.getD 0 != 0) = true))]
      rfl
    · rw [if_neg h0, if_pos (by simp [h0] : (data[k]?.getD 0 != 0) = true),
        List.map_cons, List.filter_cons]
      by_cases hp : isPrintable (data[k]?.getD 0) = true
      · rw [if_pos hp, if_pos hp, ih]
      · rw [if_neg hp, if_neg hp, ih]

/-- Claim C5 (amended): within a frame the name field is terminated early
only by the first null byte of its window; a non-null non-printable byte
does not terminate the scan — it is skipped, and printable bytes after it
(before the first null, within the 8-byte window) still contribute. -/
theorem name_terminates_only_at_null (data : ByteBuffer) (i j : Nat) :
    nameBytesOf data i j =
      (((List.range' (i + 0x1C) (min (i + 0x24) j - (i + 0x1C))).takeWhile
          fun k => data.getD k 0 != 0).map fun k => data.getD k 0).filter isPrintable := by
  rw [nameBytesOf, nameLoop_eq]

/-- Claim C5 (counterexample): in `dataC5` the name window holds `'A'`, the
non-printable non-null byte `0x01`, then `'B'`; the claim predicts the
extracted name `"A"` (termination at the first non-printable byte), but the
scan skips that byte and produces `"AB"`. -/
theorem name_skips_nonprintable_cex :
    nameBytesOf dataC5 0 31 = [0x41, 0x42] ∧
    (findPatches dataC5).map (fun p => p.name) = ["AB"] ∧
    (findPatches dataC5).map (fun p => p.name) ≠ ["A"] := by
  decide

/-- Claim C6 (counterexample): in `dataC6` the extracted prefix is `" B"`
(non-empty) and the name is `"TEST"`, so the claim predicts the rendered
label `" B. TEST"`; the code stores the stripped `"B. TEST"` instead. -/
theorem label_stripped_cex :
    strOfBytes (pfxBytesOf dataC6 0 32) = " B" ∧
    strOfBytes (nameBytesOf dataC6 0 32) = "TEST" ∧
    (findPatches dataC6).map (fun p => p.name) = ["B. TEST"] ∧
    (findPatches dataC6).map (fun p => p.name) ≠ [" B. TEST"] := by
  decide

/-- Claim C6 (amended): every frame's stored label is the whitespace-stripped
composition — `"<prefix>. <name>"` when the extracted prefix is non-empty,
else the name alone, with the placeholder `"Unknown"` when no printable name
bytes exist — and on the `"BD"`/`"TEST"` scenario buffer the scan yields
exactly one frame whose rendered label is `"BD. TEST"`. -/
theorem label_formula_with_strip (data : ByteBuffer) :
    (∀ p ∈ findPatches data,
        p.name = stripSpaces p.label ∧
        p.label =
          (if strOfBytes (pfxBytesOf data p.start p.stop) = "" then
            (if nameBytesOf data p.start p.stop = [] then "Unknown"
             else strOfBytes (nameBytesOf data p.start p.stop))
           else
            strOfBytes (pfxBytesOf data p.start p.stop) ++ ". " ++
              (if nameBytesOf data p.start p.stop = [] then "Unknown"
               else strOfBytes (nameBytesOf data p.start p.stop)))) ∧
    (findPatches bdTestBuf).map (fun p => p.name) = ["BD. TEST"] := by
  constructor
  · intro p hp
    obtain ⟨n, _, _, _, _, _, _, _, h6⟩ := mem_findPatches_frameOK data p hp
    rw [h6, mkPatch_name, mkPatch_label, mkPatch_start, mkPatch_stop]
    exact ⟨rfl, labelOf_eq data p.start p.stop⟩
  · decide

/-- Witness for the amended C6 theorem on the scenario buffer. -/
theorem label_formula_with_strip_w :
    ((findPatches bdTestBuf).getD 0 dfltPatch).name =
      stripSpaces ((findPatches bdTestBuf).getD 0 dfltPatch).label :=
  ((label_formula_with_strip bdTestBuf).1 ((findPatches bdTestBuf).getD 0 dfltPatch)
    (by rw [List.getD_eq_getElem _ _ (by decide)]
        exact List.getElem_mem (by decide))).1

/-- When no keyword group matches, the tag chain falls through to the
round-robin lookup. -/
theorem tagsFor_no_match (lbl : String) (n : Nat)
    (h : matchesAnyKeyword lbl = false) :
    tagsFor lbl n = (SAMPLE_TAGS.map Prod.snd).getD (n % SAMPLE_TAGS.length) [] := by
  have h1 : kwMatch (upperStr lbl) "KICK" "BASS" = false := by
    by_contra hc
    simp only [Bool.not_eq_false] at hc
    simp [matchesAnyKeyword, hc] at h
  have h2 : kwMatch (upperStr lbl) "SNARE" "DRUM" = false := by
    by_contra hc
    simp only [Bool.not_eq_false] at hc
    simp [matchesAnyKeyword, hc] at h
  have h3 : kwMatch (upperStr lbl) "BASS" "LOW" = false := by
    by_contra hc
    simp only [Bool.not_eq_false] at hc
    simp [matchesAnyKeyword, hc] at h
  have h4 : kwMatch (upperStr lbl) "BRASS" "HORN" = false := by
    by_contra hc
    simp only [Bool.not_eq_false] at hc
    simp [matchesAnyKeyword, hc] at h
  have h5 : kwMatch (upperStr lbl) "STRING" "PAD" = false := by
    by_contra hc
    simp only [Bool.not_eq_false] at hc
    simp [matchesAnyKeyword, hc] at h
  have h6 : kwMatch (upperStr lbl) "PERC" "TOM" = false := by
    by_contra hc
    simp only [Bool.not_eq_false] at hc
    simp [matchesAnyKeyword, hc] at h
  have h7 : kwMatch (upperStr lbl) "LIGHT" "SOFT" = false := by
    by_contra hc
    simp only [Bool.not_eq_false] at hc
    simp [matchesAnyKeyword, hc] at h
  have h8 : kwMatch (upperStr lbl) "HARD" "TOUGH" = false := by
    by_contra hc
    simp only [Bool.not_eq_false] at hc
    simp [matchesAnyKeyword, hc] at h
  simp [tagsFor, h1, h2, h3, h4, h5, h6, h7, h8]

/-- Claim C9: a frame whose rendered label matches no keyword group receives
the tag set of the keyword group at index (number of frames found before it)
modulo the number of groups — round-robin by ordinal position.  The scan is
a pure function of the buffer (it is a Lean function), so two scans of the
same buffer assign identical tag sets to every frame. -/
theorem round_robin_tags (data : ByteBuffer) (n : Nat)
    (hn : n < (findPatches data).length)
    (hno : matchesAnyKeyword ((findPatches data).getD n dfltPatch).label = false) :
    ((findPatches data).getD n dfltPatch).tags =
      (SAMPLE_TAGS.map Prod.snd).getD (n % SAMPLE_TAGS.length) [] := by
  obtain ⟨_, _, _, _, _, h6⟩ := (findPatches_spec data).1 n hn
  have htags : ((findPatches data).getD n dfltPatch).tags =
      tagsFor ((findPatches data).getD n dfltPatch).label n := by
    rw [h6, mkPatch_tags, mkPatch_label]
  rw [htags]
  exact tagsFor_no_match _ n hno

/-- Witness for C9 on the scenario buffer: `"BD. TEST"` matches no keyword
group, and the first frame (ordinal 0) gets the group-0 tag set. -/
theorem round_robin_tags_w :
    ((findPatches bdTestBuf).getD 0 dfltPatch).tags = ["KICK", "PERC", "DEEP"] := by
  have h := round_robin_tags bdTestBuf 0 (by decide) (by decide)
  rw [h]
  decide
